import Mathlib

/-!
# Verification of the distributed training/evaluation loop of `train_imagenet.py`

This file gives a shallow embedding of the coordination-relevant parts of
`train_imagenet.py` (the only source file of the repository) and proves or
refutes the frozen claims about it.

Conventions of the embedding:
* floating point statistics are modelled over `ℚ` (division is exact);
* tensors of per-class scores are `List ℚ`, integer labels are `Nat`;
* the distributed collectives (`dist.all_reduce`, `dist.new_group`) are
  modelled by the sequence of collective *events* each rank issues, together
  with a barrier-matching simulator, and by their data semantics (summing
  over the members of the active group);
* `TestDistributedSampler` (imported from `dataset.sampler`, not part of the
  sources available here) is modelled from the spec.
-/

/-- `AverageMeter` (train_imagenet.py lines 327-343): stores the current
value, the running weighted sum, the total weight and the derived average. -/
structure AverageMeter where
  val : ℚ
  avg : ℚ
  sum : ℚ
  count : ℚ
deriving DecidableEq

/-- `AverageMeter.reset` (lines 333-337): zero every field. -/
def AverageMeter.reset (_m : AverageMeter) : AverageMeter :=
  { val := 0, avg := 0, sum := 0, count := 0 }

/-- `AverageMeter.__init__` (lines 330-331) just calls `reset`. -/
def AverageMeter.init : AverageMeter :=
  { val := 0, avg := 0, sum := 0, count := 0 }

/-- `AverageMeter.update(val, n)` (lines 339-343): record the last value,
accumulate `val * n` and `n`, recompute the average as `sum / count`. -/
def AverageMeter.update (m : AverageMeter) (v n : ℚ) : AverageMeter :=
  let s := m.sum + v * n
  let c := m.count + n
  { val := v, avg := s / c, sum := s, count := c }

/-- Apply a whole sequence of `(value, weight)` updates, first to last. -/
def AverageMeter.updates (m : AverageMeter) (us : List (ℚ × ℚ)) : AverageMeter :=
  us.foldl (fun acc u => acc.update u.1 u.2) m

/-- A filesystem action performed by the checkpoint code; `σ` is the opaque
type of checkpoint states. -/
inductive FsAction (σ : Type)
  | save (state : σ) (filename : String)
  | copyfile (src dst : String)

/-- `save_checkpoint(state, is_best, filename)` (lines 321-324):
`torch.save` always runs; `shutil.copyfile` to the best slot only on
`is_best`. -/
def save_checkpoint {σ : Type} (state : σ) (best : Bool) (filename : String) :
    List (FsAction σ) :=
  [FsAction.save state filename] ++
    (if best then [FsAction.copyfile filename "model_best.pth.tar"] else [])

/-- `is_best = prec1 > best_prec1` (line 162): strict comparison against the
best validation top-1 score seen so far. -/
def is_best (prec1 best_prec1 : ℚ) : Bool :=
  decide (best_prec1 < prec1)

/-- `best_prec1 = max(prec1, best_prec1)` (line 163). -/
def updateBest (prec1 best_prec1 : ℚ) : ℚ :=
  max prec1 best_prec1

/-- The class indices of one sample sorted by descending score (stable on
ties), truncated to the first `maxk`: the index tensor returned by
`output.topk(maxk, 1, True, True)` for one row (line 351). -/
def predRow (scores : List ℚ) (maxk : Nat) : List Nat :=
  (List.insertionSort (fun i j => scores.getD j 0 ≤ scores.getD i 0)
    (List.range scores.length)).take maxk

/-- `correct_k` for one requested rank `k` (lines 352-357): after `pred.t()`
the first `k` rows of `correct` hold, for each sample, whether one of its
top-`k` predicted classes equals its label; `correct[:k].view(-1).sum`
counts the matching entries of that `k × batch` block, i.e. for each sample
the number of occurrences of its label among its first `k` predictions,
summed over the batch.  A sample is a pair `(scores, label)`. -/
def correctK (batch : List (List ℚ × Nat)) (maxk k : Nat) : Nat :=
  (batch.map (fun s => ((predRow s.1 maxk).take k).count s.2)).sum

/-- `accuracy_sum(output, target, topk)` (lines 346-359): `maxk = max(topk)`,
one shared top-`maxk` prediction, and per requested `k` the match count
scaled by `100.0`. -/
def accuracy_sum (batch : List (List ℚ × Nat)) (topk : List Nat) : List ℚ :=
  let maxk := topk.foldl max 0
  topk.map (fun k => 100 * (correctK batch maxk k : ℚ))

/-- `accuracy_sum` with the error behaviour of its torch primitives made
explicit: `max(topk)` on an empty tuple raises, and `output.topk(maxk, 1)`
raises an invalid-argument error when `maxk` exceeds the size of the sorted
dimension (the number of classes); nothing else in the function can fail. -/
def accuracy_sumE (numClasses : Nat) (batch : List (List ℚ × Nat))
    (topk : List Nat) : Except String (List ℚ) :=
  if topk = [] then
    Except.error "TypeError: max expects a non-empty sequence"
  else if numClasses < topk.foldl max 0 then
    Except.error "InvalidArgument"
  else
    Except.ok (accuracy_sum batch topk)

/-- `distributed = world_size > 1` (lines 72-77): with a single worker the
process group is never initialized. -/
def distributed (worldSize : Nat) : Bool :=
  decide (1 < worldSize)

/-- Modelled from the spec: `TestDistributedSampler` (imported from
`dataset.sampler`, whose source is not available here) shards the validation
set so that, per spec §4.4.2, when `R = datasetSize mod worldSize > 0`
exactly ranks `0..R-1` receive one extra sample; shard sizes are
`datasetSize / worldSize` plus one for ranks below `R`. -/
def localCount (datasetSize worldSize rank : Nat) : Nat :=
  datasetSize / worldSize + (if rank < datasetSize % worldSize then 1 else 0)

/-- Batch sizes produced by a `DataLoader` with batch size `B` over a local
shard of `n` samples (`drop_last` defaults to false): full batches of `B`
followed by one partial batch holding the remainder, if any. -/
def batchSizes (B n : Nat) : List Nat :=
  List.replicate (n / B) B ++ (if n % B = 0 then [] else [n % B])

/-- One collective call as issued by a rank: an all-reduce on the world
group, a `dist.new_group(g)` (which every process of the world must enter),
or an all-reduce on subgroup `g` issued by a member of `g` (a non-member
holds `GroupMember.NON_GROUP_MEMBER` and its all-reduce returns at once,
so no event is recorded for it). -/
inductive CollEvent
  | worldReduce
  | newGroup (g : List Nat)
  | groupReduce (g : List Nat)
deriving DecidableEq

/-- Collective events issued by rank `r` for one validation batch of size
`bs` (lines 288-292), with `R = len(dataset) % world_size`: the regular
branch runs `process` with the world all-reduce (four reduces: count, loss,
prec1, prec5); the remainder branch first calls `dist.new_group(range(R))`
and then runs the four reduces on that subgroup, which only members of the
subgroup actually perform. -/
def stepEvents (R r bs : Nat) : List CollEvent :=
  if 1 < bs ∨ R = 0 then
    [CollEvent.worldReduce, CollEvent.worldReduce,
     CollEvent.worldReduce, CollEvent.worldReduce]
  else
    CollEvent.newGroup (List.range R) ::
      (if r < R then
        [CollEvent.groupReduce (List.range R), CollEvent.groupReduce (List.range R),
         CollEvent.groupReduce (List.range R), CollEvent.groupReduce (List.range R)]
      else [])

/-- Collective events issued by rank `r` in one training step
(lines 209-220): four world all-reduces when distributed, none otherwise;
the training loop never forms subgroups. -/
def trainStepEvents (worldSize : Nat) : List CollEvent :=
  if distributed worldSize then
    [CollEvent.worldReduce, CollEvent.worldReduce,
     CollEvent.worldReduce, CollEvent.worldReduce]
  else []

/-- What one rank does during a whole `validate` call: the collective events
it issues, and whether it crashes at line 307 (`input.shape[0]` is read
after the loop; when the rank received no batch at all the name `input` was
never bound and the read raises). -/
structure RankTrace where
  events : List CollEvent
  crashed : Bool
deriving DecidableEq

/-- The trace of rank `r` through `validate` (lines 285-308): the loop over
its local batches (each contributing `stepEvents`), followed by the
post-loop branch `if input.shape[0]==1 and rank > last_group_size > 0:
dist.new_group(range(last_group_size))`. -/
def validateTrace (worldSize datasetSize B r : Nat) : RankTrace :=
  let R := datasetSize % worldSize
  let bss := batchSizes B (localCount datasetSize worldSize r)
  let loopEvents :=
    if distributed worldSize then (bss.map (stepEvents R r)).flatten else []
  match bss.getLast? with
  | none => { events := loopEvents, crashed := true }
  | some bs =>
      { events := loopEvents ++
          (if bs = 1 ∧ R < r ∧ 0 < R then [CollEvent.newGroup (List.range R)] else [])
        crashed := false }

/-- The ranks that must enter a collective for it to complete:
`dist.new_group` and the world all-reduce involve every process; a subgroup
all-reduce involves exactly the subgroup members. -/
def participants (worldSize : Nat) : CollEvent → List Nat
  | CollEvent.groupReduce g => g
  | _ => List.range worldSize

def queuesDone (qs : List (List CollEvent)) : Bool :=
  qs.all List.isEmpty

/-- A collective can fire when every intended participant is blocked on it,
i.e. has it at the head of its pending-event queue. -/
def canFire (worldSize : Nat) (qs : List (List CollEvent)) (e : CollEvent) : Bool :=
  (participants worldSize e).all (fun r => decide ((qs.getD r []).head? = some e))

/-- Completing a collective pops it from every participant queue. -/
def fireEvent (worldSize : Nat) (e : CollEvent) (qs : List (List CollEvent)) :
    List (List CollEvent) :=
  (List.range qs.length).map (fun r =>
    if (participants worldSize e).contains r then (qs.getD r []).tail else qs.getD r [])

/-- Barrier-matching simulator over the per-rank event queues: repeatedly
fire any collective all of whose participants have reached it; the run
completes when all queues drain, and is deadlocked when events remain but
none can fire. -/
def runQueues (worldSize : Nat) : Nat → List (List CollEvent) → Bool
  | 0, qs => queuesDone qs
  | Nat.succ fuel, qs =>
    if queuesDone qs then true
    else
      match (qs.filterMap List.head?).find? (canFire worldSize qs) with
      | some e => runQueues worldSize fuel (fireEvent worldSize e qs)
      | none => false

/-- A full evaluation pass completes iff no rank crashes and the collective
schedules of all ranks synchronize to the end. -/
def validateCompletes (worldSize datasetSize B : Nat) : Bool :=
  let traces := (List.range worldSize).map (validateTrace worldSize datasetSize B)
  traces.all (fun t => !t.crashed) &&
    runQueues worldSize ((traces.map (fun t => t.events.length)).sum)
      (traces.map (fun t => t.events))

/-- Events of the irregular final validation step for rank `r` (when the
lower ranks hold one leftover sample each): ranks below `R` process their
size-1 batch through the remainder branch of line 292, ranks at or above
`R` have exhausted their shard and execute nothing during the step. -/
def finalStepEvents (worldSize datasetSize r : Nat) : List CollEvent :=
  let R := datasetSize % worldSize
  if r < R then stepEvents R r 1 else []

/-- The value a member of group `g` observes after `all_reduce(x, SUM,
group=g)` when rank `s` contributed `c s`: the sum over the members. -/
def groupSum (g : List Nat) (c : Nat → Nat) : Nat :=
  (g.map c).sum

/-- Per-worker partial statistics of one step: the local loss sum
(`loss * target.shape[0]`, line 275), the two scaled correct counts from
`accuracy_sum`, and the local sample count. -/
structure BatchStats where
  loss : ℚ
  prec1 : ℚ
  prec5 : ℚ
  n : ℚ
deriving DecidableEq

/-- The denominator used by `process`/`train` (lines 276-283 and 213-220):
the all-reduced count when distributed, the local count otherwise. -/
def usedCount (dist : Bool) (counts : List ℚ) (i : Nat) : ℚ :=
  if dist then counts.sum else counts.getD i 0

/-- One meter recording as performed in `process` (lines 276-283) and in
`train` (lines 213-220) for a single statistic on rank `i`: the value is
all-reduce-summed over the group (or kept local when not distributed),
divided by the reduced count, and recorded with weight equal to that count. -/
def recordStat (dist : Bool) (vals counts : List ℚ) (i : Nat) (m : AverageMeter) :
    AverageMeter :=
  let c := usedCount dist counts i
  let v := if dist then vals.sum else vals.getD i 0
  m.update (v / c) c

/-- Outcome of the resume logic (lines 108-122): which branch ran, whether
`init_weights` was called, and the value `args.start_epoch` was given —
`none` when the attribute was never assigned. -/
structure ResumeState where
  warned : Bool
  freshInit : Bool
  loadedCheckpoint : Bool
  start_epoch : Option Nat
deriving DecidableEq

/-- Lines 108-122: with a resume path and an existing file, load and set
`start_epoch` from the checkpoint; with a resume path but no file, only log
a warning; with no resume path, call `init_weights` and set
`start_epoch = 0`. -/
def resumeLogic (resumeGiven fileExists : Bool) (ckptEpoch : Nat) : ResumeState :=
  if resumeGiven then
    if fileExists then
      { warned := false, freshInit := false, loadedCheckpoint := true
        start_epoch := some ckptEpoch }
    else
      { warned := true, freshInit := false, loadedCheckpoint := false
        start_epoch := none }
  else
    { warned := false, freshInit := true, loadedCheckpoint := false
      start_epoch := some 0 }

/-- Line 151: `range(args.start_epoch, ...)` reads `args.start_epoch`;
reading an attribute that was never assigned raises. -/
def epochLoopStart (s : ResumeState) : Except String Nat :=
  match s.start_epoch with
  | some e => Except.ok e
  | none => Except.error "AttributeError: start_epoch"

theorem updates_cons (m : AverageMeter) (u : ℚ × ℚ) (us : List (ℚ × ℚ)) :
    m.updates (u :: us) = (m.update u.1 u.2).updates us := rfl

theorem updates_sum (us : List (ℚ × ℚ)) (m : AverageMeter) :
    (m.updates us).sum = m.sum + (us.map fun u => u.1 * u.2).sum := by
  induction us generalizing m with
  | nil => simp [AverageMeter.updates]
  | cons u us ih =>
    rw [updates_cons, ih]
    simp [AverageMeter.update]
    ring

theorem updates_count (us : List (ℚ × ℚ)) (m : AverageMeter) :
    (m.updates us).count = m.count + (us.map Prod.snd).sum := by
  induction us generalizing m with
  | nil => simp [AverageMeter.updates]
  | cons u us ih =>
    rw [updates_cons, ih]
    simp [AverageMeter.update]
    ring

theorem updates_avg (us : List (ℚ × ℚ)) (m : AverageMeter) (h : us ≠ []) :
    (m.updates us).avg = (m.updates us).sum / (m.updates us).count := by
  induction us generalizing m with
  | nil => exact absurd rfl h
  | cons u us ih =>
    rw [updates_cons]
    cases us with
    | nil => simp [AverageMeter.updates, AverageMeter.update]
    | cons u2 us2 => exact ih _ (by simp)

/-- C6: for any sequence of `(value, weight)` updates on an `AverageMeter`,
the average equals the accumulated sum of `value * weight` divided by the
accumulated weight, the current value equals the last value passed, and
resetting any meter and replaying a sequence gives exactly the state of a
fresh meter after that sequence. -/
theorem C6_meter (us : List (ℚ × ℚ)) (m₀ : AverageMeter) (v w : ℚ) :
    (AverageMeter.init.updates us).avg
        = (us.map fun u => u.1 * u.2).sum / (us.map Prod.snd).sum
  ∧ (AverageMeter.init.updates (us ++ [(v, w)])).val = v
  ∧ m₀.reset.updates us = AverageMeter.init.updates us := by
  refine ⟨?_, ?_, rfl⟩
  · by_cases h : us = []
    · subst h
      simp [AverageMeter.updates, AverageMeter.init]
    · rw [updates_avg us _ h, updates_sum, updates_count]
      simp [AverageMeter.init]
  · rw [show AverageMeter.init.updates (us ++ [(v, w)])
          = (AverageMeter.init.updates us).update v w from by
        simp [AverageMeter.updates, List.foldl_append]]
    rfl

/-- C5: `save_checkpoint` always writes the full state and duplicates it to
the separately named best slot iff `is_best`; at the epoch boundary
`is_best` is true exactly when the validation top-1 score strictly exceeds
the best seen so far, so an equal score never triggers the best copy. -/
theorem C5_checkpoint {σ : Type} (state : σ) (b : Bool) (f : String) (p best : ℚ) :
    FsAction.save state f ∈ save_checkpoint state b f
  ∧ (FsAction.copyfile f "model_best.pth.tar" ∈ save_checkpoint state b f ↔ b = true)
  ∧ (is_best p best = true ↔ best < p)
  ∧ is_best p p = false := by
  refine ⟨?_, ?_, ?_, ?_⟩
  · simp [save_checkpoint]
  · cases b <;> simp [save_checkpoint]
  · simp [is_best]
  · simp [is_best]

/-- C4 (code bug): when a resume path is given but the file is missing, the
code logs a warning but neither initializes the weights nor assigns
`args.start_epoch`, so the epoch loop of line 151 raises instead of
training from epoch 0; the no-resume branch shows what fresh initialization
actually assigns. -/
theorem C4_resume_missing_checkpoint :
    resumeLogic true false 5
        = { warned := true, freshInit := false, loadedCheckpoint := false,
            start_epoch := none }
  ∧ epochLoopStart (resumeLogic true false 5)
        = Except.error "AttributeError: start_epoch"
  ∧ resumeLogic false true 5
        = { warned := false, freshInit := true, loadedCheckpoint := false,
            start_epoch := some 0 } :=
  ⟨rfl, rfl, rfl⟩

/-- C1 (code bug): with `worldSize = 2`, `datasetSize = 3`, per-worker batch
size 2, the remainder `R = 1` is positive, rank 1 reaches the
subgroup-forming call `dist.new_group(range(1))` in its final step, but
rank 0 never issues any `new_group` (its post-loop guard
`input.shape[0]==1 and rank > last_group_size > 0` is false), so the
evaluation pass deadlocks: rank 0 waits on a world all-reduce rank 1 never
issues, and rank 1 waits in `new_group` which rank 0 never enters. -/
theorem C1_remainder_deadlock :
    validateTrace 2 3 2 0
        = { events := [CollEvent.worldReduce, CollEvent.worldReduce,
                       CollEvent.worldReduce, CollEvent.worldReduce],
            crashed := false }
  ∧ validateTrace 2 3 2 1
        = { events := [CollEvent.newGroup [0]], crashed := false }
  ∧ CollEvent.newGroup [0] ∉ (validateTrace 2 3 2 0).events
  ∧ validateCompletes 2 3 2 = false := by
  decide

theorem recordStat_val (W : Nat) (locals : List BatchStats) (f : BatchStats → ℚ)
    (h1 : 1 ≤ W) (hlen : locals.length = W) (i : Nat) (hi : i < W) (m : AverageMeter) :
    (recordStat (distributed W) (locals.map f) (locals.map BatchStats.n) i m).val
      = (locals.map f).sum / (locals.map BatchStats.n).sum := by
  by_cases hw : 1 < W
  · simp [recordStat, usedCount, distributed, hw, AverageMeter.update]
  · have hW1 : W = 1 := by omega
    subst hW1
    rcases List.length_eq_one.mp hlen with ⟨a, rfl⟩
    have hi0 : i = 0 := by omega
    subst hi0
    simp [recordStat, usedCount, distributed, AverageMeter.update]

theorem usedCount_eq (W : Nat) (locals : List BatchStats)
    (h1 : 1 ≤ W) (hlen : locals.length = W) (i : Nat) (hi : i < W) :
    usedCount (distributed W) (locals.map BatchStats.n) i
      = (locals.map BatchStats.n).sum := by
  by_cases hw : 1 < W
  · simp [usedCount, distributed, hw]
  · have hW1 : W = 1 := by omega
    subst hW1
    rcases List.length_eq_one.mp hlen with ⟨a, rfl⟩
    have hi0 : i = 0 := by omega
    subst hi0
    simp [usedCount, distributed]

/-- C3: in the even case, for any world size between 1 and 8 and any
per-worker partial sums, the value each member records after all-reduce
summing and dividing by the reduced count equals the centrally computed
quotient of summed losses (resp. correct counts) by summed sample counts,
and the denominator used is the group-summed sample count. -/
theorem C3_even_aggregation (W : Nat) (locals : List BatchStats)
    (h1 : 1 ≤ W) (h8 : W ≤ 8) (hlen : locals.length = W) (i : Nat) (hi : i < W)
    (m : AverageMeter) :
    (recordStat (distributed W) (locals.map BatchStats.loss)
        (locals.map BatchStats.n) i m).val
        = (locals.map BatchStats.loss).sum / (locals.map BatchStats.n).sum
  ∧ (recordStat (distributed W) (locals.map BatchStats.prec1)
        (locals.map BatchStats.n) i m).val
        = (locals.map BatchStats.prec1).sum / (locals.map BatchStats.n).sum
  ∧ (recordStat (distributed W) (locals.map BatchStats.prec5)
        (locals.map BatchStats.n) i m).val
        = (locals.map BatchStats.prec5).sum / (locals.map BatchStats.n).sum
  ∧ usedCount (distributed W) (locals.map BatchStats.n) i
        = (locals.map BatchStats.n).sum :=
  ⟨recordStat_val W locals BatchStats.loss h1 hlen i hi m,
   recordStat_val W locals BatchStats.prec1 h1 hlen i hi m,
   recordStat_val W locals BatchStats.prec5 h1 hlen i hi m,
   usedCount_eq W locals h1 hlen i hi⟩

/-- Witness for C3 at `W = 2` with concrete local statistics. -/
theorem C3_even_aggregation_witness :
    (1 ≤ 2 ∧ 2 ≤ 8 ∧ ([⟨2, 0, 0, 3⟩, ⟨4, 1, 1, 5⟩] : List BatchStats).length = 2 ∧ 0 < 2)
  ∧ ((recordStat (distributed 2)
        (([⟨2, 0, 0, 3⟩, ⟨4, 1, 1, 5⟩] : List BatchStats).map BatchStats.loss)
        (([⟨2, 0, 0, 3⟩, ⟨4, 1, 1, 5⟩] : List BatchStats).map BatchStats.n) 0
        AverageMeter.init).val
        = (([⟨2, 0, 0, 3⟩, ⟨4, 1, 1, 5⟩] : List BatchStats).map BatchStats.loss).sum
          / (([⟨2, 0, 0, 3⟩, ⟨4, 1, 1, 5⟩] : List BatchStats).map BatchStats.n).sum
    ∧ (recordStat (distributed 2)
        (([⟨2, 0, 0, 3⟩, ⟨4, 1, 1, 5⟩] : List BatchStats).map BatchStats.prec1)
        (([⟨2, 0, 0, 3⟩, ⟨4, 1, 1, 5⟩] : List BatchStats).map BatchStats.n) 0
        AverageMeter.init).val
        = (([⟨2, 0, 0, 3⟩, ⟨4, 1, 1, 5⟩] : List BatchStats).map BatchStats.prec1).sum
          / (([⟨2, 0, 0, 3⟩, ⟨4, 1, 1, 5⟩] : List BatchStats).map BatchStats.n).sum
    ∧ (recordStat (distributed 2)
        (([⟨2, 0, 0, 3⟩, ⟨4, 1, 1, 5⟩] : List BatchStats).map BatchStats.prec5)
        (([⟨2, 0, 0, 3⟩, ⟨4, 1, 1, 5⟩] : List BatchStats).map BatchStats.n) 0
        AverageMeter.init).val
        = (([⟨2, 0, 0, 3⟩, ⟨4, 1, 1, 5⟩] : List BatchStats).map BatchStats.prec5).sum
          / (([⟨2, 0, 0, 3⟩, ⟨4, 1, 1, 5⟩] : List BatchStats).map BatchStats.n).sum
    ∧ usedCount (distributed 2)
        (([⟨2, 0, 0, 3⟩, ⟨4, 1, 1, 5⟩] : List BatchStats).map BatchStats.n) 0
        = (([⟨2, 0, 0, 3⟩, ⟨4, 1, 1, 5⟩] : List BatchStats).map BatchStats.n).sum) :=
  ⟨⟨by decide, by decide, rfl, by decide⟩,
   C3_even_aggregation 2 [⟨2, 0, 0, 3⟩, ⟨4, 1, 1, 5⟩]
     (by decide) (by decide) rfl 0 (by decide) AverageMeter.init⟩

theorem div_pos_of_mod_eq_zero {B n : Nat} (hn : 0 < n) (h : n % B = 0) :
    0 < n / B := by
  rcases Nat.eq_zero_or_pos (n / B) with h0 | h0
  · exfalso
    have hd := Nat.div_add_mod n B
    rw [h0, h] at hd
    simp at hd
    omega
  · exact h0

theorem batchSizes_ne_nil (B n : Nat) (hB : 0 < B) (hn : 0 < n) :
    batchSizes B n ≠ [] := by
  unfold batchSizes
  by_cases h : n % B = 0
  · have := div_pos_of_mod_eq_zero hn h
    simp [h]
    omega
  · simp [h]

/-- C10: with a single worker the job is never distributed, so the whole
evaluation pass issues no collective call and no subgroup formation (the
remainder branch is unreachable since `N % 1 = 0`), the training step
issues no collective either, and the recorded statistics equal the
locally computed quotient. -/
theorem C10_single_worker (N B : Nat) (hN : 0 < N) (hB : 0 < B)
    (v n : ℚ) (m : AverageMeter) :
    validateTrace 1 N B 0 = { events := [], crashed := false }
  ∧ trainStepEvents 1 = []
  ∧ N % 1 = 0
  ∧ (recordStat (distributed 1) [v] [n] 0 m).val = v / n
  ∧ usedCount (distributed 1) [n] 0 = n := by
  refine ⟨?_, rfl, Nat.mod_one N, ?_, rfl⟩
  · have hlocal : localCount N 1 0 = N := by
      simp [localCount, Nat.mod_one]
    have hne := batchSizes_ne_nil B N hB hN
    rcases hx : (batchSizes B N).getLast? with _ | bs
    · rw [List.getLast?_eq_none_iff] at hx
      exact absurd hx hne
    · simp [validateTrace, hlocal, hx, distributed, Nat.mod_one]
  · simp [recordStat, usedCount, distributed, AverageMeter.update]

/-- Witness for C10 at `N = 4`, `B = 2`. -/
theorem C10_single_worker_witness :
    (0 < 4 ∧ 0 < 2)
  ∧ (validateTrace 1 4 2 0 = { events := [], crashed := false }
    ∧ trainStepEvents 1 = []
    ∧ 4 % 1 = 0
    ∧ (recordStat (distributed 1) [(3 : ℚ)] [(2 : ℚ)] 0 AverageMeter.init).val = 3 / 2
    ∧ usedCount (distributed 1) [(2 : ℚ)] 0 = 2) :=
  ⟨⟨by decide, by decide⟩,
   C10_single_worker 4 2 (by decide) (by decide) 3 2 AverageMeter.init⟩

theorem batchSizes_mul (B t : Nat) (hB : 0 < B) :
    batchSizes B (B * t) = List.replicate t B := by
  unfold batchSizes
  rw [Nat.mul_mod_right, Nat.mul_div_cancel_left t hB]
  simp

theorem batchSizes_mul_add_one (B t : Nat) (hB : 2 ≤ B) :
    batchSizes B (B * t + 1) = List.replicate t B ++ [1] := by
  have h1 : (B * t + 1) % B = 1 := by
    rw [Nat.mul_add_mod]
    exact Nat.mod_eq_of_lt (by omega)
  have h2 : (B * t + 1) / B = t := by
    rw [Nat.mul_add_div (by omega : 0 < B)]
    simp [Nat.div_eq_of_lt (by omega : 1 < B)]
  unfold batchSizes
  rw [h1, h2]
  simp

theorem sum_map_one (l : List Nat) : (l.map (fun _ => (1 : Nat))).sum = l.length := by
  induction l with
  | nil => rfl
  | cons a l ih =>
    simp [ih]
    omega

/-- C2: in the irregular final evaluation step (`R = N % W > 0`, lower ranks
holding one leftover sample), ranks below `R` have a final batch of exactly
one sample and issue the remainder-branch events — subgroup formation over
exactly ranks `0..R-1` followed by reduces on that subgroup — while ranks
at or above `R` have one step fewer and issue nothing during the step; the
reduced global sample count is the sum of the `R` contributing local counts,
namely `R`, and `R` differs from the world size. -/
theorem C2_remainder_group (W N B r s : Nat) (hB : 2 ≤ B)
    (hR : 0 < N % W) (hq : N / W % B = 0) (hr : r < N % W) (hs : N % W ≤ s) :
    (batchSizes B (localCount N W r)).getLast? = some 1
  ∧ (batchSizes B (localCount N W s)).length + 1
      = (batchSizes B (localCount N W 0)).length
  ∧ finalStepEvents W N r
      = CollEvent.newGroup (List.range (N % W))
          :: List.replicate 4 (CollEvent.groupReduce (List.range (N % W)))
  ∧ finalStepEvents W N s = []
  ∧ CollEvent.groupReduce (List.range (N % W)) ∈ finalStepEvents W N r
  ∧ groupSum (List.range (N % W)) (fun _ => 1) = N % W
  ∧ N % W ≠ W := by
  have hq' : N / W = B * (N / W / B) := by
    have h := Nat.div_add_mod (N / W) B
    omega
  have hlr : localCount N W r = B * (N / W / B) + 1 := by
    rw [localCount, if_pos hr]
    omega
  have hls : localCount N W s = B * (N / W / B) := by
    rw [localCount, if_neg (by omega : ¬ s < N % W)]
    omega
  have hl0 : localCount N W 0 = B * (N / W / B) + 1 := by
    rw [localCount, if_pos hR]
    omega
  have hbr : batchSizes B (localCount N W r) = List.replicate (N / W / B) B ++ [1] := by
    rw [hlr, batchSizes_mul_add_one B _ hB]
  have hbs : batchSizes B (localCount N W s) = List.replicate (N / W / B) B := by
    rw [hls, batchSizes_mul B _ (by omega)]
  have hb0 : batchSizes B (localCount N W 0) = List.replicate (N / W / B) B ++ [1] := by
    rw [hl0, batchSizes_mul_add_one B _ hB]
  have hstep : finalStepEvents W N r
      = CollEvent.newGroup (List.range (N % W))
          :: List.replicate 4 (CollEvent.groupReduce (List.range (N % W))) := by
    have h1 : finalStepEvents W N r = stepEvents (N % W) r 1 := by
      simp [finalStepEvents, hr]
    rw [h1, stepEvents, if_neg (by omega : ¬ (1 < 1 ∨ N % W = 0)), if_pos hr]
    rfl
  refine ⟨?_, ?_, hstep, ?_, ?_, ?_, ?_⟩
  · rw [hbr]
    simp
  · rw [hbs, hb0]
    simp
  · simp [finalStepEvents, show ¬ s < N % W from by omega]
  · rw [hstep]
    simp
  · simp [groupSum, sum_map_one]
  · rcases Nat.eq_zero_or_pos W with h0 | h0
    · subst h0
      rw [Nat.mod_zero] at hR ⊢
      omega
    · exact Nat.ne_of_lt (Nat.mod_lt N h0)

/-- Witness for C2 at `W = 3`, `N = 10`, `B = 3`, member rank 0,
excluded rank 1 (so `R = 1`). -/
theorem C2_remainder_group_witness :
    (2 ≤ 3 ∧ 0 < 10 % 3 ∧ 10 / 3 % 3 = 0 ∧ 0 < 10 % 3 ∧ 10 % 3 ≤ 1)
  ∧ ((batchSizes 3 (localCount 10 3 0)).getLast? = some 1
    ∧ (batchSizes 3 (localCount 10 3 1)).length + 1
        = (batchSizes 3 (localCount 10 3 0)).length
    ∧ finalStepEvents 3 10 0
        = CollEvent.newGroup (List.range (10 % 3))
            :: List.replicate 4 (CollEvent.groupReduce (List.range (10 % 3)))
    ∧ finalStepEvents 3 10 1 = []
    ∧ CollEvent.groupReduce (List.range (10 % 3)) ∈ finalStepEvents 3 10 0
    ∧ groupSum (List.range (10 % 3)) (fun _ => 1) = 10 % 3
    ∧ 10 % 3 ≠ 3) :=
  ⟨⟨by decide, by decide, by decide, by decide, by decide⟩,
   C2_remainder_group 3 10 3 0 1 (by decide) (by decide) (by decide)
     (by decide) (by decide)⟩

theorem foldl_max_init (l : List Nat) (b : Nat) : b ≤ l.foldl max b := by
  induction l generalizing b with
  | nil => exact le_refl b
  | cons x l ih => exact le_trans (le_max_left b x) (ih (max b x))

theorem le_foldl_max (l : List Nat) (a : Nat) : a ∈ l → ∀ b, a ≤ l.foldl max b := by
  induction l with
  | nil => intro h; cases h
  | cons x l ih =>
    intro h b
    rcases List.mem_cons.mp h with h1 | h1
    · subst h1
      exact le_trans (le_max_right b a) (foldl_max_init l (max b a))
    · exact ih h1 (max b x)

theorem correctK_mono (batch : List (List ℚ × Nat)) (m k k' : Nat) (h : k ≤ k') :
    correctK batch m k ≤ correctK batch m k' := by
  unfold correctK
  apply List.sum_le_sum
  intro s hs
  apply List.Sublist.count_le
  rw [show (predRow s.1 m).take k = ((predRow s.1 m).take k').take k from by
    rw [List.take_take, min_eq_left h]]
  exact List.take_sublist _ _

/-- C7: a sample whose true label is among the top `k` predictions is also
among the top `k'` predictions for `k ≤ k'`, hence the scaled correct count
returned by `accuracy_sum` is non-decreasing in the requested rank. -/
theorem C7_topk_monotone (batch : List (List ℚ × Nat)) (scores : List ℚ)
    (label : Nat) (m k k' : Nat) (h : k ≤ k') :
    (label ∈ (predRow scores m).take k → label ∈ (predRow scores m).take k')
  ∧ correctK batch m k ≤ correctK batch m k'
  ∧ (accuracy_sum batch [k, k']).getD 0 0 ≤ (accuracy_sum batch [k, k']).getD 1 0 := by
  refine ⟨?_, correctK_mono batch m k k' h, ?_⟩
  · intro hm
    have he : (predRow scores m).take k = ((predRow scores m).take k').take k := by
      rw [List.take_take, min_eq_left h]
    rw [he] at hm
    exact List.take_subset _ _ hm
  · have e1 : (accuracy_sum batch [k, k']).getD 0 0
        = 100 * (correctK batch ([k, k'].foldl max 0) k : ℚ) := rfl
    have e2 : (accuracy_sum batch [k, k']).getD 1 0
        = 100 * (correctK batch ([k, k'].foldl max 0) k' : ℚ) := rfl
    rw [e1, e2]
    have hc : (correctK batch ([k, k'].foldl max 0) k : ℚ)
        ≤ (correctK batch ([k, k'].foldl max 0) k' : ℚ) := by
      exact_mod_cast correctK_mono batch ([k, k'].foldl max 0) k k' h
    exact mul_le_mul_of_nonneg_left hc (by norm_num)

/-- Witness for C7 on a concrete one-sample batch with ranks 1 and 2. -/
theorem C7_topk_monotone_witness :
    1 ≤ 2
  ∧ ((1 ∈ (predRow [(1 : ℚ), 3, 2] 3).take 1 → 1 ∈ (predRow [(1 : ℚ), 3, 2] 3).take 2)
    ∧ correctK [([(1 : ℚ), 3, 2], 1)] 3 1 ≤ correctK [([(1 : ℚ), 3, 2], 1)] 3 2
    ∧ (accuracy_sum [([(1 : ℚ), 3, 2], 1)] [1, 2]).getD 0 0
        ≤ (accuracy_sum [([(1 : ℚ), 3, 2], 1)] [1, 2]).getD 1 0) :=
  ⟨by decide, C7_topk_monotone [([(1 : ℚ), 3, 2], 1)] [(1 : ℚ), 3, 2] 1 3 1 2 (by decide)⟩

theorem predRow_nodup (scores : List ℚ) (m : Nat) : (predRow scores m).Nodup := by
  have h1 : (List.insertionSort (fun i j => scores.getD j 0 ≤ scores.getD i 0)
      (List.range scores.length)).Nodup :=
    (List.perm_insertionSort _ _).symm.nodup (List.nodup_range _)
  exact List.Nodup.sublist (List.take_sublist _ _) h1

theorem count_take_pred (s : List ℚ × Nat) (M k : Nat) (hk : k ≤ M) :
    ((predRow s.1 M).take k).count s.2
      = if s.2 ∈ predRow s.1 k then 1 else 0 := by
  have he : (predRow s.1 M).take k = predRow s.1 k := by
    unfold predRow
    rw [List.take_take, min_eq_left hk]
  rw [he]
  by_cases hmem : s.2 ∈ predRow s.1 k
  · rw [if_pos hmem]
    exact List.count_eq_one_of_mem (predRow_nodup _ _) hmem
  · rw [if_neg hmem]
    exact List.count_eq_zero_of_not_mem hmem

theorem sum_map_ite_one (l : List (List ℚ × Nat)) (p : List ℚ × Nat → Prop)
    [DecidablePred p] :
    (l.map (fun a => if p a then (1 : Nat) else 0)).sum
      = l.countP (fun a => decide (p a)) := by
  induction l with
  | nil => rfl
  | cons a l ih =>
    by_cases hp : p a <;> simp [List.countP_cons, hp, ih] <;> omega

/-- C8: `accuracy_sum` returns, per requested rank `k`, one hundred times
the count of samples whose true label is among the `k` highest-scored
classes. -/
theorem C8_accuracy_count (batch : List (List ℚ × Nat)) (ks : List Nat) (C : Nat)
    (hC : ∀ s ∈ batch, s.1.length = C) (hmax : ks.foldl max 0 ≤ C) :
    accuracy_sum batch ks
      = ks.map (fun k =>
          100 * (batch.countP (fun s => decide (s.2 ∈ predRow s.1 k)) : ℚ)) := by
  simp only [accuracy_sum]
  apply List.map_congr_left
  intro k hk
  have hkM : k ≤ ks.foldl max 0 := le_foldl_max ks k hk 0
  congr 1
  norm_cast
  unfold correctK
  rw [show batch.map (fun s => ((predRow s.1 (ks.foldl max 0)).take k).count s.2)
      = batch.map (fun s => if s.2 ∈ predRow s.1 k then (1 : Nat) else 0) from
    List.map_congr_left (fun s _ => count_take_pred s (ks.foldl max 0) k hkM)]
  exact sum_map_ite_one batch _

/-- Witness for C8 on a concrete one-sample batch with ranks `{1, 2}` and
three classes. -/
theorem C8_accuracy_count_witness :
    ((∀ s ∈ [([(1 : ℚ), 3, 2], 1)], s.1.length = 3) ∧ [1, 2].foldl max 0 ≤ 3)
  ∧ accuracy_sum [([(1 : ℚ), 3, 2], 1)] [1, 2]
      = [1, 2].map (fun k =>
          100 * (([([(1 : ℚ), 3, 2], 1)].countP
              (fun s => decide (s.2 ∈ predRow s.1 k))) : ℚ)) :=
  ⟨⟨by decide, by decide⟩,
   C8_accuracy_count [([(1 : ℚ), 3, 2], 1)] [1, 2] 3 (by decide) (by decide)⟩

/-- C9: with a non-empty set of requested ranks, `accuracy_sum` fails with
an invalid-argument error exactly when `max(topk)` exceeds the number of
classes, and succeeds (returning its scaled counts) in every other case:
there is no other error condition. -/
theorem C9_accuracy_error (C : Nat) (batch : List (List ℚ × Nat)) (ks : List Nat)
    (h : ks ≠ []) :
    (accuracy_sumE C batch ks = Except.error "InvalidArgument"
        ↔ C < ks.foldl max 0)
  ∧ (accuracy_sumE C batch ks = Except.ok (accuracy_sum batch ks)
        ↔ ks.foldl max 0 ≤ C) := by
  unfold accuracy_sumE
  rw [if_neg h]
  by_cases hlt : C < ks.foldl max 0
  · rw [if_pos hlt]
    refine ⟨⟨fun _ => hlt, fun _ => rfl⟩,
      ⟨fun he => by simp at he, fun hle => absurd hle (by omega)⟩⟩
  · rw [if_neg hlt]
    refine ⟨⟨fun he => by simp at he, fun h2 => absurd h2 hlt⟩,
      ⟨fun _ => by omega, fun _ => rfl⟩⟩

/-- Witness for C9: ranks `{1, 5}` against 5 classes succeed; the same
theorem also characterizes the failure bound. -/
theorem C9_accuracy_error_witness :
    ([1, 5] : List Nat) ≠ []
  ∧ ((accuracy_sumE 5 [] [1, 5] = Except.error "InvalidArgument"
        ↔ 5 < [1, 5].foldl max 0)
    ∧ (accuracy_sumE 5 [] [1, 5] = Except.ok (accuracy_sum [] [1, 5])
        ↔ [1, 5].foldl max 0 ≤ 5)) :=
  ⟨by decide, C9_accuracy_error 5 [] [1, 5] (by decide)⟩
